import Mathlib

/-!
Shallow embedding of `jcache/__init__.py` (django-jcache): a stale-while-
revalidate cache coordinator.  The Django cache backend is modelled as an
explicit store with two disjoint namespaces (`flag:` keys hold integers,
`data:` keys hold `(value, stale_at)` pairs; the two prefixes can never
collide, so the store keeps them in two maps keyed by the full namespaced
string).  Every backend mutation and every generator invocation or Celery
dispatch is recorded in an event trace, so that the claims about flag
accounting, generator invocation and TTLs become statements about the
trace of an execution.

Time (`time.time()`) is modelled as an `Int` parameter `now`; within one
call all reads of the clock return `now` (for an `invoke_async` execution,
its own `runNow`, since it may run later in a worker).
-/

namespace JCacheModel

/-- Which piece of code performed a backend flag operation: the body of
`JCache.get`, the body of `invoke_async`, or the body of `JCache.freshen`. -/
inductive Actor where
  | get
  | invoker
  | freshen
deriving DecidableEq, Repr

/-- One observable event of an execution.

* `incrFlag a key timeout seeded ret`: one call of `JCache._incr_flag`
  (actor `a`); `seeded = true` means the backend `incr` raised `ValueError`
  (key absent) and the flag was seeded to `1` via `_reset_flag` with the
  given `timeout`; `ret` is the value returned.
* `decrFlag`: one call of `JCache._decr_flag`, analogously (seed value `0`).
* `resetFlag a key timeout value`: one direct call of `JCache._reset_flag`.
* `setData key staleAt timeout`: one write of a cache entry by `JCache.set`.
* `genInvoke`: one invocation of the user generator.
* `dispatch key`: one `invoke_async.apply_async(...)` submission to Celery. -/
inductive Ev where
  | incrFlag (a : Actor) (key : String) (timeout : Option Nat) (seeded : Bool) (ret : Int)
  | decrFlag (a : Actor) (key : String) (timeout : Option Nat) (seeded : Bool) (ret : Int)
  | resetFlag (a : Actor) (key : String) (timeout : Option Nat) (value : Int)
  | setData (key : String) (staleAt : Int) (timeout : Option Nat)
  | genInvoke
  | dispatch (key : String)
deriving DecidableEq, Repr

/-- The Django cache backend state, restricted to what this module stores:
integers under `flag:`-prefixed keys and `(value, stale_at)` pairs under
`data:`-prefixed keys, each further keyed by the optional Django `version`. -/
structure Store (V : Type) where
  flags : String → Option Nat → Option Int
  datas : String → Option Nat → Option (V × Int)

variable {V : Type}

/-- Backend `cache.set` of an integer (flag) cell. -/
def setFlagRaw (st : Store V) (fkey : String) (version : Option Nat) (n : Int) : Store V :=
  { st with flags := fun k w => if k = fkey ∧ w = version then some n else st.flags k w }

/-- Backend `cache.set` of a `(value, stale_at)` (data) cell. -/
def setDataRaw (st : Store V) (dkey : String) (version : Option Nat) (p : V × Int) : Store V :=
  { st with datas := fun k w => if k = dkey ∧ w = version then some p else st.datas k w }

deriving instance DecidableEq for Except

/-- A user generator, `generator(*args, **kwargs)`: its outcome (a value, or
the message of the exception it raises) together with its attached
`_jcache_options` member `lazy_result`. -/
structure GenSpec (V : Type) where
  run : Except String V
  lazy_result : Bool
deriving DecidableEq, Repr

/-- Result of one `_incr_flag` / `_decr_flag` / `_reset_flag` call. -/
structure FlagStep (V : Type) where
  ret : Int
  st : Store V
  tr : List Ev

/-- Python `stale or self.stale`: a per-call stale override of `None` (or the
falsy `0`) falls back to the instance default. -/
def orDefault (stale : Option Nat) (d : Nat) : Nat :=
  match stale with
  | none => d
  | some s => if s = 0 then d else s

/-- The `JCache` instance configuration: `stale` window and optional `expiry`. -/
structure JCache (V : Type) where
  stale : Nat
  expiry : Option Nat

/-- `JCache._reset_flag(key, version, timeout, value)`: set `"flag:" + key`
to `value` with `timeout`, return `value`. -/
def reset_flag (a : Actor) (st : Store V) (key : String) (version : Option Nat)
    (timeout : Option Nat) (value : Int) : FlagStep V :=
  ⟨value, setFlagRaw st ("flag:" ++ key) version value,
    [.resetFlag a ("flag:" ++ key) timeout value]⟩

/-- `JCache._incr_flag(key, version, timeout)`: atomic `incr` of
`"flag:" + key`; on `ValueError` (key absent) seed to `1` via `_reset_flag`
with the given `timeout` (event recorded with `seeded = true`). -/
def incr_flag (a : Actor) (st : Store V) (key : String) (version : Option Nat)
    (timeout : Option Nat) : FlagStep V :=
  match st.flags ("flag:" ++ key) version with
  | some n =>
      ⟨n + 1, setFlagRaw st ("flag:" ++ key) version (n + 1),
        [.incrFlag a ("flag:" ++ key) timeout false (n + 1)]⟩
  | none =>
      ⟨1, setFlagRaw st ("flag:" ++ key) version 1,
        [.incrFlag a ("flag:" ++ key) timeout true 1]⟩

/-- `JCache._decr_flag(key, version, timeout)`: atomic `decr` of
`"flag:" + key`; on `ValueError` (key absent) seed to `0` via `_reset_flag`
with the given `timeout` (event recorded with `seeded = true`). -/
def decr_flag (a : Actor) (st : Store V) (key : String) (version : Option Nat)
    (timeout : Option Nat) : FlagStep V :=
  match st.flags ("flag:" ++ key) version with
  | some n =>
      ⟨n - 1, setFlagRaw st ("flag:" ++ key) version (n - 1),
        [.decrFlag a ("flag:" ++ key) timeout false (n - 1)]⟩
  | none =>
      ⟨0, setFlagRaw st ("flag:" ++ key) version 0,
        [.decrFlag a ("flag:" ++ key) timeout true 0]⟩

/-- Result of a `JCache.set` call. -/
structure SetStep (V : Type) where
  st : Store V
  tr : List Ev

/-- `JCache.set(key, value, stale_at, version, timeout)`: store
`(value, stale_at)` under `"data:" + key`; `timeout` defaults to
`self.expiry`, `stale_at` defaults to `time.time() + self.stale`. -/
def JCache.set (jc : JCache V) (st : Store V) (key : String) (value : V)
    (stale_at : Option Int) (version : Option Nat) (timeout : Option Nat)
    (now : Int) : SetStep V :=
  let timeout := match timeout with
    | none => jc.expiry
    | some t => some t
  let stale_at := match stale_at with
    | none => now + (jc.stale : Int)
    | some s => s
  ⟨setDataRaw st ("data:" ++ key) version (value, stale_at),
    [.setData ("data:" ++ key) stale_at timeout]⟩

/-- The argument tuple handed to `invoke_async` (by `apply_async` dispatch
or by an inline call): key, version, generator, stale override, and the
`expires_at` deadline computed as `time.time() + (stale or self.stale)`. -/
structure IArgs (V : Type) where
  key : String
  version : Option Nat
  generator : Option (GenSpec V)
  stale : Option Nat
  expires_at : Option Int
deriving DecidableEq, Repr

/-- Result of one `invoke_async` execution: the value it returns (`Except`
for a propagating generator exception), the resulting store, and its trace. -/
structure InvokeOut (V : Type) where
  ret : Except String (Option V)
  st : Store V
  tr : List Ev

/-- Calling the generator object; calling `None` raises `TypeError`. -/
def callGen : Option (GenSpec V) → Except String V
  | none => .error "TypeError: NoneType object is not callable"
  | some g => g.run

/-- The guard `expires_at is None or expires_at > time.time()` of
`invoke_async`, evaluated at time `runNow`. -/
def stillValid (expires_at : Option Int) (runNow : Int) : Bool :=
  match expires_at with
  | none => true
  | some e => runNow < e

/-- The Celery task `invoke_async(jcache, key, version, generator, stale,
args, kwargs, expires_at)`, executed at time `runNow`:
if `expires_at` is unset or still in the future, run the generator and
write the new entry with `stale_at = runNow + (stale or jcache.stale)` and
`timeout = jcache.expiry`; otherwise skip.  In all cases (`finally:`) the
flag is decremented with timeout `1 + (stale or jcache.stale)`. -/
def invoke_async (jc : JCache V) (st : Store V) (a : IArgs V) (runNow : Int) :
    InvokeOut V :=
  let ttl : Option Nat := some (1 + orDefault a.stale jc.stale)
  if stillValid a.expires_at runNow then
    match callGen a.generator with
    | .error e =>
        let d := decr_flag .invoker st a.key a.version ttl
        ⟨.error e, d.st, .genInvoke :: d.tr⟩
    | .ok v =>
        let stale_at : Int := runNow + (orDefault a.stale jc.stale : Int)
        let s := JCache.set jc st a.key v (some stale_at) a.version jc.expiry runNow
        let d := decr_flag .invoker s.st a.key a.version ttl
        ⟨.ok (some v), d.st, .genInvoke :: (s.tr ++ d.tr)⟩
  else
    let d := decr_flag .invoker st a.key a.version ttl
    ⟨.ok none, d.st, d.tr⟩

/-- The return value of a `JCache.get` call.

* `val v`: a plain value (`none` models Python `None`).
* `raise e`: `get` raises (a generator exception from the inline path).
* `awaitResult a`: `get` blocks on `async_result.get(...)` of the task it
  dispatched with arguments `a` and returns that task's result.
* `lazyAwait a`: a `SimpleLazyObject` that, when forced, awaits the task
  dispatched with arguments `a`.
* `lazyInline a`: a `SimpleLazyObject` that, when forced, runs
  `invoke_async(*a)` inline in the forcing context (no dispatch happened;
  the flag release travels inside the lazy object). -/
inductive GRet (V : Type) where
  | val (v : Option V)
  | raise (e : String)
  | awaitResult (a : IArgs V)
  | lazyAwait (a : IArgs V)
  | lazyInline (a : IArgs V)
deriving DecidableEq, Repr

/-- Result of one `JCache.get` execution: return value, resulting store,
trace of events performed during the call (including those of an inline
`invoke_async` run), and the argument tuple of the Celery task dispatched
by this call, if any. -/
structure GetOut (V : Type) where
  ret : GRet V
  st : Store V
  tr : List Ev
  dispatched : Option (IArgs V)

/-- `generate` as computed by `JCache.get` (lines 133-146): regeneration is
warranted iff the entry is missing and a generator was supplied, or the
entry is present with `stale_at < now` and a generator was supplied. -/
def regenWarranted (st0 : Store V) (key : String) (version : Option Nat)
    (generator : Option (GenSpec V)) (now : Int) : Bool :=
  match st0.datas ("data:" ++ key) version with
  | none => generator.isSome
  | some p => if p.2 < now then generator.isSome else false

/-- The `value` local of `JCache.get` before any regeneration: the stored
value if the entry is present, else `None`. -/
def dataValue (st0 : Store V) (key : String) (version : Option Nat) : Option V :=
  match st0.datas ("data:" ++ key) version with
  | none => none
  | some p => some p.1

/-- The inline branch of `JCache.get` (blocking caller, nothing dispatched,
no lazy option): run `invoke_async(*invoke_async_args)` in the current
context and return its value, propagating a generator exception; the flag
release was handed to `invoke_async` (`do_decr = False`). -/
def getInline (jc : JCache V) (st2 : Store V) (ia : IArgs V) (now : Int)
    (tr2 : List Ev) : GetOut V :=
  let o := invoke_async jc st2 ia now
  ⟨match o.ret with
    | .ok v => .val v
    | .error e => .raise e,
   o.st, tr2 ++ o.tr, none⟩

/-- The body of `JCache.get` lines 161-194, reached exactly when this call
is the elected sole regenerator (`generate and flag == 1`).  `st2`/`tr2`
are the store and trace after the flag increment (and possible anomaly
reset); `packedNone` records `packed is None`; `value0` is the `value`
local.  Mirrors the source:

* dispatch (`apply_async`) iff `not wait_on_generate or (wait_on_generate
  and async_wait_on_generate)`; in that case `do_decr = False`;
* block iff `wait_on_generate and packed is None`; blocking either awaits
  the dispatched task or, if none was dispatched, runs `invoke_async`
  inline (setting `do_decr = False`); a `lazy_result` generator option
  wraps the blocking step in a `SimpleLazyObject` instead;
* `finally`: decrement the flag iff `do_decr` is still true. -/
def getElected (jc : JCache V) (st2 : Store V) (key : String) (version : Option Nat)
    (stale : Option Nat) (generator : Option (GenSpec V))
    (wait_on_generate async_wait_on_generate : Bool)
    (packedNone : Bool) (value0 : Option V) (now : Int) (ttl : Option Nat)
    (tr2 : List Ev) : GetOut V :=
  let iargs : IArgs V :=
    ⟨key, version, generator, stale, some (now + (orDefault stale jc.stale : Int))⟩
  let dispatchQ : Bool := !wait_on_generate || (wait_on_generate && async_wait_on_generate)
  if wait_on_generate && packedNone then
    let lazyQ : Bool := match generator with
      | some g => g.lazy_result
      | none => false
    if dispatchQ then
      if lazyQ then
        ⟨.lazyAwait iargs, st2, tr2 ++ [.dispatch key], some iargs⟩
      else
        ⟨.awaitResult iargs, st2, tr2 ++ [.dispatch key], some iargs⟩
    else
      if lazyQ then
        ⟨.lazyInline iargs, st2, tr2, none⟩
      else
        getInline jc st2 iargs now tr2
  else
    if dispatchQ then
      ⟨.val value0, st2, tr2 ++ [.dispatch key], some iargs⟩
    else
      let d := decr_flag .get st2 key version ttl
      ⟨.val value0, d.st, tr2 ++ d.tr, none⟩

/-- `JCache.get(key, version, stale, generator, wait_on_generate,
async_wait_on_generate, *args, **kwargs)` at time `now` on store `st0`
(the key is already the normalized string).  Mirrors the source: read
`packed`; decide `generate`; if regenerating, `_incr_flag` with timeout
`1 + (stale or self.stale)`, reset to `1` on a post-increment value `< 1`,
and run the elected branch iff the resulting flag equals `1`, otherwise
release the increment in the `finally` and return the available value. -/
def JCache.get (jc : JCache V) (st0 : Store V) (key : String) (version : Option Nat)
    (stale : Option Nat) (generator : Option (GenSpec V))
    (wait_on_generate async_wait_on_generate : Bool) (now : Int) : GetOut V :=
  let value0 := dataValue st0 key version
  if regenWarranted st0 key version generator now then
    let ttl : Option Nat := some (1 + orDefault stale jc.stale)
    let i := incr_flag .get st0 key version ttl
    if i.ret < 1 then
      let r := reset_flag .get i.st key version ttl 1
      getElected jc r.st key version stale generator wait_on_generate
        async_wait_on_generate (st0.datas ("data:" ++ key) version).isNone
        value0 now ttl (i.tr ++ r.tr)
    else
      if i.ret = 1 then
        getElected jc i.st key version stale generator wait_on_generate
          async_wait_on_generate (st0.datas ("data:" ++ key) version).isNone
          value0 now ttl i.tr
      else
        let d := decr_flag .get i.st key version ttl
        ⟨.val value0, d.st, i.tr ++ d.tr, none⟩
  else
    ⟨.val value0, st0, [], none⟩

/-- Result of a `JCache.freshen` call: resulting store, trace, and the
argument tuple of the dispatched task (the returned `AsyncResult`), if any. -/
structure FreshenOut (V : Type) where
  st : Store V
  tr : List Ev
  dispatched : Option (IArgs V)

/-- `JCache.freshen(key, version, generator, stale, *args, **kwargs)` at
time `now`: `_incr_flag` with timeout `1 + (stale or self.stale)`; if the
result is `> 1`, `_decr_flag` (with no timeout) and dispatch nothing; else
`_reset_flag` to `1` and (the flag now being `1`) dispatch `invoke_async`
with `expires_at = time.time() + (stale or self.stale)`. -/
def JCache.freshen (jc : JCache V) (st0 : Store V) (key : String) (version : Option Nat)
    (generator : Option (GenSpec V)) (stale : Option Nat) (now : Int) : FreshenOut V :=
  let ttl : Option Nat := some (1 + orDefault stale jc.stale)
  let i := incr_flag .freshen st0 key version ttl
  if i.ret > 1 then
    let d := decr_flag .freshen i.st key version none
    ⟨d.st, i.tr ++ d.tr, none⟩
  else
    let r := reset_flag .freshen i.st key version ttl 1
    ⟨r.st, i.tr ++ r.tr ++ [.dispatch key],
      some ⟨key, version, generator, stale, some (now + (orDefault stale jc.stale : Int))⟩⟩

/-- The value the flag-counter increment of `get`/`freshen` returns on store
`st0` (the "post-increment value"): one more than the stored counter, or
`1` if the counter key is absent (seeded). -/
def postIncrFlag (st0 : Store V) (key : String) (version : Option Nat) : Int :=
  match st0.flags ("flag:" ++ key) version with
  | some n => n + 1
  | none => 1

/-- Event predicate: a `_incr_flag` call performed by actor `a`. -/
def isIncrBy (a : Actor) : Ev → Bool
  | .incrFlag b _ _ _ _ => b == a
  | _ => false

/-- Event predicate: a `_decr_flag` call performed by actor `a`. -/
def isDecrBy (a : Actor) : Ev → Bool
  | .decrFlag b _ _ _ _ => b == a
  | _ => false

/-- Event predicate: any `_decr_flag` call. -/
def isDecrAny : Ev → Bool
  | .decrFlag _ _ _ _ _ => true
  | _ => false

/-- Event predicate: a Celery dispatch (`apply_async`). -/
def isDispatchEv : Ev → Bool
  | .dispatch _ => true
  | _ => false

/-- Event predicate: a generator invocation. -/
def isGenInvoke : Ev → Bool
  | .genInvoke => true
  | _ => false

/-- Event predicate: a cache-entry write by `JCache.set`. -/
def isSetData : Ev → Bool
  | .setData _ _ _ => true
  | _ => false

/-- Event predicate: any operation touching the flag counter. -/
def touchesFlag : Ev → Bool
  | .incrFlag _ _ _ _ _ => true
  | .decrFlag _ _ _ _ _ => true
  | .resetFlag _ _ _ _ => true
  | _ => false

/-- Event predicate: the event stored (seeded or reset) the flag counter:
a seeding `_incr_flag`/`_decr_flag`, or a `_reset_flag`. -/
def seedsOrResets : Ev → Bool
  | .incrFlag _ _ _ s _ => s
  | .decrFlag _ _ _ s _ => s
  | .resetFlag _ _ _ _ => true
  | _ => false

/-- The backend key an event addressed. -/
def evKey : Ev → Option String
  | .incrFlag _ k _ _ _ => some k
  | .decrFlag _ k _ _ _ => some k
  | .resetFlag _ k _ _ => some k
  | .setData k _ _ => some k
  | .dispatch k => some k
  | .genInvoke => none

/-- The TTL an event supplied to the backend, when it carries one. -/
def evTTL : Ev → Option (Option Nat)
  | .incrFlag _ _ t _ _ => some t
  | .decrFlag _ _ t _ _ => some t
  | .resetFlag _ _ t _ => some t
  | .setData _ _ t => some t
  | _ => none

/-- Release obligations a `get` call hands off instead of discharging
itself: a task dispatched to Celery (whose `invoke_async` run decrements in
its `finally`), plus a `lazyInline` return value (an inline `invoke_async`
deferred into the returned lazy object, which decrements when forced). -/
def pendingReleases (o : GetOut V) : Nat :=
  (match o.dispatched with
    | some _ => 1
    | none => 0) +
  (match o.ret with
    | .lazyInline _ => 1
    | _ => 0)

/-! ### Helper lemmas about the backend operations -/

theorem incr_flag_ret (a : Actor) (st : Store V) (key : String) (version : Option Nat)
    (t : Option Nat) : (incr_flag a st key version t).ret = postIncrFlag st key version := by
  unfold incr_flag postIncrFlag
  cases st.flags ("flag:" ++ key) version <;> rfl

theorem incr_flag_tr_shape (a : Actor) (st : Store V) (key : String) (version : Option Nat)
    (t : Option Nat) :
    ∃ s, (incr_flag a st key version t).tr
      = [Ev.incrFlag a ("flag:" ++ key) t s (postIncrFlag st key version)] := by
  unfold incr_flag postIncrFlag
  cases st.flags ("flag:" ++ key) version
  · exact ⟨true, rfl⟩
  · exact ⟨false, rfl⟩

theorem incr_flag_datas (a : Actor) (st : Store V) (key : String) (version : Option Nat)
    (t : Option Nat) : (incr_flag a st key version t).st.datas = st.datas := by
  unfold incr_flag
  cases st.flags ("flag:" ++ key) version <;> rfl

theorem incr_flag_flags_same (a : Actor) (st : Store V) (key : String) (version : Option Nat)
    (t : Option Nat) :
    (incr_flag a st key version t).st.flags ("flag:" ++ key) version
      = some (postIncrFlag st key version) := by
  unfold incr_flag postIncrFlag
  cases st.flags ("flag:" ++ key) version <;> simp [setFlagRaw]

theorem decr_flag_tr_shape (a : Actor) (st : Store V) (key : String) (version : Option Nat)
    (t : Option Nat) :
    ∃ s r, (decr_flag a st key version t).tr = [Ev.decrFlag a ("flag:" ++ key) t s r] := by
  unfold decr_flag
  cases st.flags ("flag:" ++ key) version
  · exact ⟨true, 0, rfl⟩
  · exact ⟨false, _, rfl⟩

theorem decr_flag_tr_of_some (a : Actor) (st : Store V) (key : String) (version : Option Nat)
    (t : Option Nat) (n : Int) (h : st.flags ("flag:" ++ key) version = some n) :
    (decr_flag a st key version t).tr = [Ev.decrFlag a ("flag:" ++ key) t false (n - 1)] := by
  unfold decr_flag
  rw [h]

theorem decr_flag_datas (a : Actor) (st : Store V) (key : String) (version : Option Nat)
    (t : Option Nat) : (decr_flag a st key version t).st.datas = st.datas := by
  unfold decr_flag
  cases st.flags ("flag:" ++ key) version <;> rfl

theorem reset_flag_datas (a : Actor) (st : Store V) (key : String) (version : Option Nat)
    (t : Option Nat) (v : Int) : (reset_flag a st key version t v).st.datas = st.datas := rfl

theorem reset_flag_tr (a : Actor) (st : Store V) (key : String) (version : Option Nat)
    (t : Option Nat) (v : Int) :
    (reset_flag a st key version t v).tr = [Ev.resetFlag a ("flag:" ++ key) t v] := rfl

theorem reset_flag_flags_same (a : Actor) (st : Store V) (key : String) (version : Option Nat)
    (t : Option Nat) (v : Int) :
    (reset_flag a st key version t v).st.flags ("flag:" ++ key) version = some v := by
  simp [reset_flag, setFlagRaw]

theorem set_datas_other (jc : JCache V) (st : Store V) (key : String) (value : V)
    (sa : Option Int) (version : Option Nat) (t : Option Nat) (now : Int) :
    (JCache.set jc st key value sa version t now).st.flags = st.flags := by
  simp [JCache.set, setDataRaw]

theorem set_tr_shape (jc : JCache V) (st : Store V) (key : String) (value : V)
    (sa : Option Int) (version : Option Nat) (t : Option Nat) (now : Int) :
    ∃ saE tE, (JCache.set jc st key value sa version t now).tr
      = [Ev.setData ("data:" ++ key) saE tE] := by
  exact ⟨_, _, rfl⟩

/-- `invoke_async` always performs exactly one flag decrement (its
`finally:` clause), and never any increment; its decrement belongs to the
`invoker` actor. -/
theorem invoke_async_counts (jc : JCache V) (st : Store V) (a : IArgs V) (runNow : Int) :
    ((invoke_async jc st a runNow).tr).countP (isDecrBy .invoker) = 1 ∧
    ((invoke_async jc st a runNow).tr).countP (isDecrBy .get) = 0 ∧
    ((invoke_async jc st a runNow).tr).countP (isIncrBy .get) = 0 := by
  simp only [invoke_async]
  split
  · rcases hg : callGen a.generator with e | v
    · obtain ⟨s, r, h⟩ := decr_flag_tr_shape (V := V) .invoker st a.key a.version
        (some (1 + orDefault a.stale jc.stale))
      simp [hg, h, List.countP_cons, List.countP_nil, isDecrBy, isIncrBy, isGenInvoke]
    · obtain ⟨sa, te, hset⟩ := set_tr_shape jc st a.key v
        (some (runNow + (orDefault a.stale jc.stale : Int))) a.version jc.expiry runNow
      obtain ⟨s, r, h⟩ := decr_flag_tr_shape (V := V) .invoker
        (JCache.set jc st a.key v
          (some (runNow + (orDefault a.stale jc.stale : Int))) a.version jc.expiry runNow).st
        a.key a.version (some (1 + orDefault a.stale jc.stale))
      simp [hg, hset, h, List.countP_cons, List.countP_nil, List.countP_append,
        isDecrBy, isIncrBy]
  · obtain ⟨s, r, h⟩ := decr_flag_tr_shape (V := V) .invoker st a.key a.version
      (some (1 + orDefault a.stale jc.stale))
    simp [h, List.countP_cons, List.countP_nil, isDecrBy, isIncrBy]

theorem invoke_async_decrInv (jc : JCache V) (st : Store V) (a : IArgs V) (runNow : Int) :
    ((invoke_async jc st a runNow).tr).countP (isDecrBy .invoker) = 1 :=
  (invoke_async_counts jc st a runNow).1

theorem invoke_async_decrGet (jc : JCache V) (st : Store V) (a : IArgs V) (runNow : Int) :
    ((invoke_async jc st a runNow).tr).countP (isDecrBy .get) = 0 :=
  (invoke_async_counts jc st a runNow).2.1

theorem invoke_async_incrGet (jc : JCache V) (st : Store V) (a : IArgs V) (runNow : Int) :
    ((invoke_async jc st a runNow).tr).countP (isIncrBy .get) = 0 :=
  (invoke_async_counts jc st a runNow).2.2

theorem getInline_countIncrGet (jc : JCache V) (st2 : Store V) (ia : IArgs V) (now : Int)
    (tr2 : List Ev) :
    (getInline jc st2 ia now tr2).tr.countP (isIncrBy .get)
      = tr2.countP (isIncrBy .get) := by
  unfold getInline
  simp [List.countP_append, invoke_async_incrGet]

theorem getInline_balance (jc : JCache V) (st2 : Store V) (ia : IArgs V) (now : Int)
    (tr2 : List Ev) :
    (getInline jc st2 ia now tr2).tr.countP (isDecrBy .get)
      + (getInline jc st2 ia now tr2).tr.countP (isDecrBy .invoker)
      + pendingReleases (getInline jc st2 ia now tr2)
      = tr2.countP (isDecrBy .get) + tr2.countP (isDecrBy .invoker) + 1 := by
  unfold getInline pendingReleases
  rcases hret : (invoke_async jc st2 ia now).ret with e | v <;>
    simp [hret, List.countP_append, invoke_async_decrGet, invoke_async_decrInv] <;>
    omega

/-- The elected branch neither increments the flag again, and it always
produces exactly one extra release relative to its input trace: a `get`
decrement, an inline `invoke_async` decrement, or a pending release
(dispatched task or deferred lazy inline run). -/
theorem getElected_accounting (jc : JCache V) (st2 : Store V) (key : String)
    (version : Option Nat) (stale : Option Nat) (generator : Option (GenSpec V))
    (w a pn : Bool) (v0 : Option V) (now : Int) (ttl : Option Nat) (tr2 : List Ev) :
    (getElected jc st2 key version stale generator w a pn v0 now ttl tr2).tr.countP (isIncrBy .get)
      = tr2.countP (isIncrBy .get) ∧
    (getElected jc st2 key version stale generator w a pn v0 now ttl tr2).tr.countP (isDecrBy .get)
      + (getElected jc st2 key version stale generator w a pn v0 now ttl tr2).tr.countP (isDecrBy .invoker)
      + pendingReleases (getElected jc st2 key version stale generator w a pn v0 now ttl tr2)
      = tr2.countP (isDecrBy .get) + tr2.countP (isDecrBy .invoker) + 1 := by
  unfold getElected
  cases w
  · -- not waiting: dispatch, no block
    simp [pendingReleases, List.countP_append, List.countP_cons, List.countP_nil,
      isIncrBy, isDecrBy]
  · cases pn
    · -- waiting but entry present: no block
      cases a
      · -- no dispatch either: the finally decrements
        obtain ⟨s, r, h⟩ := decr_flag_tr_shape (V := V) .get st2 key version ttl
        simp only [Bool.and_self, Bool.and_false, Bool.not_true, Bool.false_or,
          Bool.or_self, if_false, Bool.false_eq_true, ite_false]
        simp [pendingReleases, h, List.countP_append, List.countP_cons, List.countP_nil,
          isIncrBy, isDecrBy]
        omega
      · -- async dispatch, stale value returned
        simp [pendingReleases, List.countP_append, List.countP_cons, List.countP_nil,
          isIncrBy, isDecrBy]
    · -- waiting and entry missing: block
      cases a
      · -- no dispatch: lazy or inline
        rcases generator with _ | g
        · simpa using ⟨getInline_countIncrGet jc st2 _ now tr2, getInline_balance jc st2 _ now tr2⟩
        · cases hl : g.lazy_result
          · simpa [hl] using ⟨getInline_countIncrGet jc st2 _ now tr2, getInline_balance jc st2 _ now tr2⟩
          · simp [hl, pendingReleases, List.countP_append, List.countP_cons, List.countP_nil,
              isIncrBy, isDecrBy]
      · -- dispatched then awaited (possibly lazily)
        rcases generator with _ | g
        · simp [pendingReleases, List.countP_append, List.countP_cons, List.countP_nil,
            isIncrBy, isDecrBy]
        · cases hl : g.lazy_result <;>
            simp [hl, pendingReleases, List.countP_append, List.countP_cons, List.countP_nil,
              isIncrBy, isDecrBy]

/-! ### Characterization of `JCache.get` by regime -/

theorem get_eq_of_notWarranted (jc : JCache V) (st0 : Store V) (key : String)
    (version : Option Nat) (stale : Option Nat) (generator : Option (GenSpec V))
    (w a : Bool) (now : Int)
    (hw : regenWarranted st0 key version generator now = false) :
    JCache.get jc st0 key version stale generator w a now
      = ⟨.val (dataValue st0 key version), st0, [], none⟩ := by
  unfold JCache.get
  simp [hw]

theorem get_eq_of_elected (jc : JCache V) (st0 : Store V) (key : String)
    (version : Option Nat) (stale : Option Nat) (generator : Option (GenSpec V))
    (w a : Bool) (now : Int)
    (hw : regenWarranted st0 key version generator now = true)
    (hflag : postIncrFlag st0 key version = 1) :
    JCache.get jc st0 key version stale generator w a now
      = getElected jc
          (incr_flag .get st0 key version (some (1 + orDefault stale jc.stale))).st
          key version stale generator w a
          (st0.datas ("data:" ++ key) version).isNone
          (dataValue st0 key version) now (some (1 + orDefault stale jc.stale))
          (incr_flag .get st0 key version (some (1 + orDefault stale jc.stale))).tr := by
  unfold JCache.get
  simp [hw, incr_flag_ret, hflag]

theorem get_eq_of_notElected (jc : JCache V) (st0 : Store V) (key : String)
    (version : Option Nat) (stale : Option Nat) (generator : Option (GenSpec V))
    (w a : Bool) (now : Int)
    (hw : regenWarranted st0 key version generator now = true)
    (hflag : 1 < postIncrFlag st0 key version) :
    JCache.get jc st0 key version stale generator w a now
      = ⟨.val (dataValue st0 key version),
         (decr_flag .get
           (incr_flag .get st0 key version (some (1 + orDefault stale jc.stale))).st
           key version (some (1 + orDefault stale jc.stale))).st,
         (incr_flag .get st0 key version (some (1 + orDefault stale jc.stale))).tr
           ++ (decr_flag .get
             (incr_flag .get st0 key version (some (1 + orDefault stale jc.stale))).st
             key version (some (1 + orDefault stale jc.stale))).tr,
         none⟩ := by
  unfold JCache.get
  have h1 : ¬ ((incr_flag (V := V) .get st0 key version
      (some (1 + orDefault stale jc.stale))).ret < 1) := by
    rw [incr_flag_ret]
    omega
  have h2 : (incr_flag (V := V) .get st0 key version
      (some (1 + orDefault stale jc.stale))).ret ≠ 1 := by
    rw [incr_flag_ret]
    omega
  simp [hw, h1, h2]

theorem get_eq_of_anomaly (jc : JCache V) (st0 : Store V) (key : String)
    (version : Option Nat) (stale : Option Nat) (generator : Option (GenSpec V))
    (w a : Bool) (now : Int)
    (hw : regenWarranted st0 key version generator now = true)
    (hflag : postIncrFlag st0 key version < 1) :
    JCache.get jc st0 key version stale generator w a now
      = getElected jc
          (reset_flag .get
            (incr_flag .get st0 key version (some (1 + orDefault stale jc.stale))).st
            key version (some (1 + orDefault stale jc.stale)) 1).st
          key version stale generator w a
          (st0.datas ("data:" ++ key) version).isNone
          (dataValue st0 key version) now (some (1 + orDefault stale jc.stale))
          ((incr_flag .get st0 key version (some (1 + orDefault stale jc.stale))).tr
            ++ (reset_flag .get
              (incr_flag .get st0 key version (some (1 + orDefault stale jc.stale))).st
              key version (some (1 + orDefault stale jc.stale)) 1).tr) := by
  unfold JCache.get
  have h1 : (incr_flag (V := V) .get st0 key version
      (some (1 + orDefault stale jc.stale))).ret < 1 := by
    rw [incr_flag_ret]
    omega
  simp [hw, h1]

/-! ### Characterization of `getElected` by mode -/

theorem getElected_eq_noWait (jc : JCache V) (st2 : Store V) (key : String)
    (version : Option Nat) (stale : Option Nat) (generator : Option (GenSpec V))
    (a pn : Bool) (v0 : Option V) (now : Int) (ttl : Option Nat) (tr2 : List Ev) :
    getElected jc st2 key version stale generator false a pn v0 now ttl tr2
      = ⟨.val v0, st2, tr2 ++ [.dispatch key],
         some ⟨key, version, generator, stale, some (now + (orDefault stale jc.stale : Int))⟩⟩ := by
  unfold getElected
  simp

theorem getElected_eq_waitStale_noAsync (jc : JCache V) (st2 : Store V) (key : String)
    (version : Option Nat) (stale : Option Nat) (generator : Option (GenSpec V))
    (v0 : Option V) (now : Int) (ttl : Option Nat) (tr2 : List Ev) :
    getElected jc st2 key version stale generator true false false v0 now ttl tr2
      = ⟨.val v0, (decr_flag .get st2 key version ttl).st,
         tr2 ++ (decr_flag .get st2 key version ttl).tr, none⟩ := by
  unfold getElected
  simp

theorem getElected_eq_waitMissing_inline (jc : JCache V) (st2 : Store V) (key : String)
    (version : Option Nat) (stale : Option Nat) (g : GenSpec V) (v0 : Option V)
    (now : Int) (ttl : Option Nat) (tr2 : List Ev) (hl : g.lazy_result = false) :
    getElected jc st2 key version stale (some g) true false true v0 now ttl tr2
      = getInline jc st2
          ⟨key, version, some g, stale, some (now + (orDefault stale jc.stale : Int))⟩
          now tr2 := by
  unfold getElected
  simp [hl]

theorem invoke_async_error_eq (jc : JCache V) (st : Store V) (a : IArgs V) (runNow : Int)
    (e0 : Int) (hexp : a.expires_at = some e0) (hrun : runNow < e0)
    (msg : String) (hgen : callGen a.generator = .error msg) :
    invoke_async jc st a runNow
      = ⟨.error msg,
         (decr_flag .invoker st a.key a.version (some (1 + orDefault a.stale jc.stale))).st,
         .genInvoke ::
           (decr_flag .invoker st a.key a.version (some (1 + orDefault a.stale jc.stale))).tr⟩ := by
  unfold invoke_async
  rw [hexp]
  simp [stillValid, hrun, hgen]

theorem getInline_error (jc : JCache V) (st2 : Store V) (ia : IArgs V) (now : Int)
    (tr2 : List Ev) (e0 : Int) (hexp : ia.expires_at = some e0) (hrun : now < e0)
    (msg : String) (hgen : callGen ia.generator = .error msg) :
    getInline jc st2 ia now tr2
      = ⟨.raise msg,
         (decr_flag .invoker st2 ia.key ia.version (some (1 + orDefault ia.stale jc.stale))).st,
         tr2 ++ .genInvoke ::
           (decr_flag .invoker st2 ia.key ia.version (some (1 + orDefault ia.stale jc.stale))).tr,
         none⟩ := by
  unfold getInline
  rw [invoke_async_error_eq jc st2 ia now e0 hexp hrun msg hgen]

/-! ### Concrete fixtures used by witnesses and counterexamples -/

/-- A `JCache(stale=240, expiry=None)` over `Nat` values. -/
def jcW : JCache Nat := ⟨240, none⟩

/-- A generator returning `7`, no lazy option. -/
def genW : GenSpec Nat := ⟨.ok 7, false⟩

/-- A generator raising `Exception("message")`, no lazy option. -/
def genFailW : GenSpec Nat := ⟨.error "message", false⟩

/-- An empty backend. -/
def emptyW : Store Nat := ⟨fun _ _ => none, fun _ _ => none⟩

/-- A backend whose `flag:k` counter was left at `-1` (an uncoordinated
decrement against an expired flag), with no data. -/
def negFlagW : Store Nat :=
  ⟨fun k w => if k = "flag:k" ∧ w = none then some (-1) else none, fun _ _ => none⟩

/-- A backend holding entry `(5, stale_at = 50)` under `data:k`, no flag. -/
def staleW : Store Nat :=
  ⟨fun _ _ => none, fun k w => if k = "data:k" ∧ w = none then some (5, 50) else none⟩

/-! ### Claims -/

/-- C3: for every `get` on a key whose stored entry has `staleAt >= now`,
the stored value is returned immediately, the generator is never invoked,
and the flag counter is neither incremented nor decremented (the whole
execution leaves the store untouched and has an empty trace), regardless of
whether a generator was supplied. -/
theorem C3_fresh_no_regen (jc : JCache V) (st0 : Store V) (key : String)
    (version : Option Nat) (stale : Option Nat) (generator : Option (GenSpec V))
    (w a : Bool) (now : Int) (v : V) (sAt : Int)
    (hdata : st0.datas ("data:" ++ key) version = some (v, sAt))
    (hfresh : now ≤ sAt) :
    JCache.get jc st0 key version stale generator w a now
      = ⟨.val (some v), st0, [], none⟩ := by
  have hw : regenWarranted st0 key version generator now = false := by
    unfold regenWarranted
    rw [hdata]
    simp [not_lt.mpr hfresh]
  have hv : dataValue st0 key version = some v := by
    unfold dataValue
    rw [hdata]
  rw [get_eq_of_notWarranted jc st0 key version stale generator w a now hw, hv]

theorem C3_witness :
    JCache.get jcW staleW "k" none none (some genW) true true 30
      = ⟨.val (some 5), staleW, [], none⟩ :=
  C3_fresh_no_regen jcW staleW "k" none none (some genW) true true 30 5 50
    (by decide) (by decide)

/-- C6: an `invoke_async` execution whose non-null `expires_at` has already
passed when it runs never calls the generator, writes no cache entry,
still decrements the flag counter exactly once, and returns `None`. -/
theorem C6_expired_skip (jc : JCache V) (st : Store V) (a : IArgs V) (runNow : Int)
    (e : Int) (hexp : a.expires_at = some e) (hpast : e ≤ runNow) :
    (invoke_async jc st a runNow).ret = .ok none ∧
    ((invoke_async jc st a runNow).tr).countP isGenInvoke = 0 ∧
    ((invoke_async jc st a runNow).tr).countP isSetData = 0 ∧
    ((invoke_async jc st a runNow).tr).countP isDecrAny = 1 ∧
    (invoke_async jc st a runNow).st.datas = st.datas := by
  obtain ⟨s, r, h⟩ := decr_flag_tr_shape (V := V) .invoker st a.key a.version
    (some (1 + orDefault a.stale jc.stale))
  have hd := decr_flag_datas (V := V) .invoker st a.key a.version
    (some (1 + orDefault a.stale jc.stale))
  unfold invoke_async
  rw [hexp]
  simp [stillValid, not_lt.mpr hpast, h, hd, List.countP_cons, List.countP_nil,
    isGenInvoke, isSetData, isDecrAny]

theorem C6_witness :
    (invoke_async jcW emptyW ⟨"k", none, some genW, none, some 90⟩ 100).ret = .ok none ∧
    ((invoke_async jcW emptyW ⟨"k", none, some genW, none, some 90⟩ 100).tr).countP isGenInvoke = 0 ∧
    ((invoke_async jcW emptyW ⟨"k", none, some genW, none, some 90⟩ 100).tr).countP isSetData = 0 ∧
    ((invoke_async jcW emptyW ⟨"k", none, some genW, none, some 90⟩ 100).tr).countP isDecrAny = 1 ∧
    (invoke_async jcW emptyW ⟨"k", none, some genW, none, some 90⟩ 100).st.datas = emptyW.datas :=
  C6_expired_skip jcW emptyW ⟨"k", none, some genW, none, some 90⟩ 100 90 rfl (by decide)

/-- C10: a blocking `get` (`wait_on_generate = true`,
`async_wait_on_generate = false`) with a generator, on a stale but present
entry, does nothing even when elected sole regenerator (post-increment
flag value `1`): the generator is not invoked, nothing is dispatched, the
stale value is returned, the flag increment is released by exactly one
`get` decrement, and the entry is unchanged. -/
theorem C10_elected_blocking_stale_noop (jc : JCache V) (st0 : Store V) (key : String)
    (version : Option Nat) (stale : Option Nat) (g : GenSpec V) (now : Int)
    (v : V) (sAt : Int)
    (hdata : st0.datas ("data:" ++ key) version = some (v, sAt))
    (hstale : sAt < now)
    (hflag : postIncrFlag st0 key version = 1) :
    (JCache.get jc st0 key version stale (some g) true false now).ret = .val (some v) ∧
    (JCache.get jc st0 key version stale (some g) true false now).dispatched = none ∧
    ((JCache.get jc st0 key version stale (some g) true false now).tr).countP isGenInvoke = 0 ∧
    ((JCache.get jc st0 key version stale (some g) true false now).tr).countP isDispatchEv = 0 ∧
    ((JCache.get jc st0 key version stale (some g) true false now).tr).countP (isDecrBy .get) = 1 ∧
    (JCache.get jc st0 key version stale (some g) true false now).st.datas = st0.datas := by
  have hw : regenWarranted st0 key version (some g) now = true := by
    unfold regenWarranted
    rw [hdata]
    simp [hstale]
  have hv : dataValue st0 key version = some v := by
    unfold dataValue
    rw [hdata]
  have heq := get_eq_of_elected jc st0 key version stale (some g) true false now hw hflag
  rw [hdata] at heq
  simp only [Option.isNone_some] at heq
  rw [getElected_eq_waitStale_noAsync] at heq
  obtain ⟨s, hitr⟩ := incr_flag_tr_shape (V := V) .get st0 key version
    (some (1 + orDefault stale jc.stale))
  have hflags := incr_flag_flags_same (V := V) .get st0 key version
    (some (1 + orDefault stale jc.stale))
  rw [hflag] at hflags
  have hdtr := decr_flag_tr_of_some (V := V) .get
    (incr_flag .get st0 key version (some (1 + orDefault stale jc.stale))).st
    key version (some (1 + orDefault stale jc.stale)) 1 hflags
  have hid := incr_flag_datas (V := V) .get st0 key version
    (some (1 + orDefault stale jc.stale))
  have hdd := decr_flag_datas (V := V) .get
    (incr_flag .get st0 key version (some (1 + orDefault stale jc.stale))).st
    key version (some (1 + orDefault stale jc.stale))
  rw [heq]
  refine ⟨by simp [hv], rfl, ?_, ?_, ?_, ?_⟩
  · simp [hitr, hdtr, hflag, List.countP_append, List.countP_cons, List.countP_nil, isGenInvoke]
  · simp [hitr, hdtr, hflag, List.countP_append, List.countP_cons, List.countP_nil, isDispatchEv]
  · simp [hitr, hdtr, hflag, List.countP_append, List.countP_cons, List.countP_nil, isDecrBy]
  · simp [hdd, hid]

theorem C10_witness :
    (JCache.get jcW staleW "k" none none (some genW) true false 100).ret = .val (some 5) ∧
    (JCache.get jcW staleW "k" none none (some genW) true false 100).dispatched = none ∧
    ((JCache.get jcW staleW "k" none none (some genW) true false 100).tr).countP isGenInvoke = 0 ∧
    ((JCache.get jcW staleW "k" none none (some genW) true false 100).tr).countP isDispatchEv = 0 ∧
    ((JCache.get jcW staleW "k" none none (some genW) true false 100).tr).countP (isDecrBy .get) = 1 ∧
    (JCache.get jcW staleW "k" none none (some genW) true false 100).st.datas = staleW.datas :=
  C10_elected_blocking_stale_noop jcW staleW "k" none none genW 100 5 50
    (by decide) (by decide) (by decide)

/-- C4: a non-blocking `get` (`wait_on_generate = false`) with a generator
on a stale but still-present entry returns the old value immediately
(whatever the flag outcome); when the post-increment flag value is `1`,
exactly one regeneration is submitted to Celery, `get` performs no
decrement itself, and the release obligation transfers to the dispatched
work. -/
theorem C4_stale_nonblocking (jc : JCache V) (st0 : Store V) (key : String)
    (version : Option Nat) (stale : Option Nat) (g : GenSpec V) (a : Bool) (now : Int)
    (v : V) (sAt : Int)
    (hdata : st0.datas ("data:" ++ key) version = some (v, sAt))
    (hstale : sAt < now) :
    (JCache.get jc st0 key version stale (some g) false a now).ret = .val (some v) ∧
    (postIncrFlag st0 key version = 1 →
      (JCache.get jc st0 key version stale (some g) false a now).dispatched
          = some ⟨key, version, some g, stale, some (now + (orDefault stale jc.stale : Int))⟩ ∧
      ((JCache.get jc st0 key version stale (some g) false a now).tr).countP isDispatchEv = 1 ∧
      ((JCache.get jc st0 key version stale (some g) false a now).tr).countP (isDecrBy .get) = 0 ∧
      pendingReleases (JCache.get jc st0 key version stale (some g) false a now) = 1) := by
  have hw : regenWarranted st0 key version (some g) now = true := by
    unfold regenWarranted
    rw [hdata]
    simp [hstale]
  have hv : dataValue st0 key version = some v := by
    unfold dataValue
    rw [hdata]
  obtain ⟨s, hitr⟩ := incr_flag_tr_shape (V := V) .get st0 key version
    (some (1 + orDefault stale jc.stale))
  constructor
  · rcases lt_trichotomy (postIncrFlag st0 key version) 1 with h | h | h
    · rw [get_eq_of_anomaly jc st0 key version stale (some g) false a now hw h,
        getElected_eq_noWait, hv]
    · rw [get_eq_of_elected jc st0 key version stale (some g) false a now hw h,
        getElected_eq_noWait, hv]
    · rw [get_eq_of_notElected jc st0 key version stale (some g) false a now hw h, hv]
  · intro h
    rw [get_eq_of_elected jc st0 key version stale (some g) false a now hw h,
      getElected_eq_noWait]
    refine ⟨rfl, ?_, ?_, rfl⟩
    · simp [hitr, List.countP_append, List.countP_cons, List.countP_nil, isDispatchEv]
    · simp [hitr, List.countP_append, List.countP_cons, List.countP_nil, isDecrBy]

theorem C4_witness :
    (JCache.get jcW staleW "k" none none (some genW) false false 100).ret = .val (some 5) ∧
    ((JCache.get jcW staleW "k" none none (some genW) false false 100).dispatched
        = some ⟨"k", none, some genW, none, some (100 + ((orDefault none jcW.stale : Nat) : Int))⟩ ∧
      ((JCache.get jcW staleW "k" none none (some genW) false false 100).tr).countP isDispatchEv = 1 ∧
      ((JCache.get jcW staleW "k" none none (some genW) false false 100).tr).countP (isDecrBy .get) = 0 ∧
      pendingReleases (JCache.get jcW staleW "k" none none (some genW) false false 100) = 1) := by
  have h := C4_stale_nonblocking jcW staleW "k" none none genW false 100 5 50
    (by decide) (by decide)
  exact ⟨h.1, h.2 (by decide)⟩

/-- C5: when the generator raises on the synchronous inline path (blocking
caller, entry missing, nothing dispatched, non-lazy generator, this caller
elected), the original exception propagates out of `get`, the flag counter
is still decremented exactly once (by `invoke_async`'s `finally`), and no
cache entry is written.  (The hypothesis `0 < stale or self.stale` makes
the inline invocation's `expires_at` deadline lie in the future, i.e. the
generator actually runs.) -/
theorem C5_inline_failure_propagates (jc : JCache V) (st0 : Store V) (key : String)
    (version : Option Nat) (stale : Option Nat) (g : GenSpec V) (now : Int) (msg : String)
    (hdata : st0.datas ("data:" ++ key) version = none)
    (hgen : g.run = .error msg) (hlazy : g.lazy_result = false)
    (hflag : postIncrFlag st0 key version ≤ 1)
    (hpos : 0 < orDefault stale jc.stale) :
    (JCache.get jc st0 key version stale (some g) true false now).ret = .raise msg ∧
    ((JCache.get jc st0 key version stale (some g) true false now).tr).countP isDecrAny = 1 ∧
    ((JCache.get jc st0 key version stale (some g) true false now).tr).countP isSetData = 0 ∧
    (JCache.get jc st0 key version stale (some g) true false now).st.datas = st0.datas := by
  have hw : regenWarranted st0 key version (some g) now = true := by
    unfold regenWarranted
    rw [hdata]
    rfl
  have hcg : callGen (some g) = Except.error msg := by
    simp [callGen, hgen]
  have hrun : now < now + (orDefault stale jc.stale : Int) := by
    have : (0 : Int) < (orDefault stale jc.stale : Int) := by exact_mod_cast hpos
    omega
  obtain ⟨s, hitr⟩ := incr_flag_tr_shape (V := V) .get st0 key version
    (some (1 + orDefault stale jc.stale))
  rcases lt_or_eq_of_le hflag with h | h
  · -- anomaly: post-increment value < 1, reset to 1, then elected inline run
    have heq := get_eq_of_anomaly jc st0 key version stale (some g) true false now hw h
    rw [hdata] at heq
    simp only [Option.isNone_none] at heq
    rw [getElected_eq_waitMissing_inline _ _ _ _ _ _ _ _ _ _ hlazy] at heq
    rw [getInline_error _ _ _ _ _ (now + (orDefault stale jc.stale : Int)) rfl hrun msg hcg]
      at heq
    obtain ⟨s2, r2, hdtr⟩ := decr_flag_tr_shape (V := V) .invoker
      (reset_flag .get
        (incr_flag .get st0 key version (some (1 + orDefault stale jc.stale))).st
        key version (some (1 + orDefault stale jc.stale)) 1).st
      key version (some (1 + orDefault stale jc.stale))
    rw [heq]
    refine ⟨rfl, ?_, ?_, ?_⟩
    · simp [hitr, hdtr, reset_flag_tr, List.countP_append, List.countP_cons, List.countP_nil,
        isDecrAny, isGenInvoke]
    · simp [hitr, hdtr, reset_flag_tr, List.countP_append, List.countP_cons, List.countP_nil,
        isSetData]
    · simp [decr_flag_datas, reset_flag_datas, incr_flag_datas]
  · -- normal election: post-increment value exactly 1
    have heq := get_eq_of_elected jc st0 key version stale (some g) true false now hw h
    rw [hdata] at heq
    simp only [Option.isNone_none] at heq
    rw [getElected_eq_waitMissing_inline _ _ _ _ _ _ _ _ _ _ hlazy] at heq
    rw [getInline_error _ _ _ _ _ (now + (orDefault stale jc.stale : Int)) rfl hrun msg hcg]
      at heq
    obtain ⟨s2, r2, hdtr⟩ := decr_flag_tr_shape (V := V) .invoker
      (incr_flag .get st0 key version (some (1 + orDefault stale jc.stale))).st
      key version (some (1 + orDefault stale jc.stale))
    rw [heq]
    refine ⟨rfl, ?_, ?_, ?_⟩
    · simp [hitr, hdtr, List.countP_append, List.countP_cons, List.countP_nil,
        isDecrAny, isGenInvoke]
    · simp [hitr, hdtr, List.countP_append, List.countP_cons, List.countP_nil, isSetData]
    · simp [decr_flag_datas, incr_flag_datas]

theorem C5_witness :
    (JCache.get jcW emptyW "k" none none (some genFailW) true false 100).ret
        = .raise "message" ∧
    ((JCache.get jcW emptyW "k" none none (some genFailW) true false 100).tr).countP isDecrAny = 1 ∧
    ((JCache.get jcW emptyW "k" none none (some genFailW) true false 100).tr).countP isSetData = 0 ∧
    (JCache.get jcW emptyW "k" none none (some genFailW) true false 100).st.datas = emptyW.datas :=
  C5_inline_failure_propagates jcW emptyW "k" none none genFailW 100 "message"
    (by decide) (by decide) (by decide) (by decide) (by decide)

/-- C1 counterexample: the claim "the generator is invoked by this call
only if the flag counter's post-increment value equals 1" is false as
stated: with the flag counter at `-1` (the anomaly the code explicitly
handles), the post-increment value is `0`, yet after the reset to `1` this
very call invokes the generator inline. -/
theorem C1_counterexample :
    postIncrFlag negFlagW "k" none = 0 ∧
    ((JCache.get jcW negFlagW "k" none none (some genW) true false 100).tr).countP
      isGenInvoke = 1 := by
  decide

/-- C1 (amended): when regeneration is warranted, the generator is invoked
or a regeneration dispatched by this call only if the post-increment value
is at most 1 (a value below 1 being reset to 1 per the anomaly rule of
C7); every caller whose post-increment value is greater than 1 performs no
invocation and no dispatch, returns whatever value is available (the stale
value, or None if missing), and still releases its increment with exactly
one decrement. -/
theorem C1_not_elected_skips (jc : JCache V) (st0 : Store V) (key : String)
    (version : Option Nat) (stale : Option Nat) (generator : Option (GenSpec V))
    (w a : Bool) (now : Int)
    (hw : regenWarranted st0 key version generator now = true)
    (hgt : 1 < postIncrFlag st0 key version) :
    (JCache.get jc st0 key version stale generator w a now).ret
        = .val (dataValue st0 key version) ∧
    (JCache.get jc st0 key version stale generator w a now).dispatched = none ∧
    ((JCache.get jc st0 key version stale generator w a now).tr).countP isGenInvoke = 0 ∧
    ((JCache.get jc st0 key version stale generator w a now).tr).countP isDispatchEv = 0 ∧
    ((JCache.get jc st0 key version stale generator w a now).tr).countP (isDecrBy .get) = 1 ∧
    pendingReleases (JCache.get jc st0 key version stale generator w a now) = 0 := by
  have heq := get_eq_of_notElected jc st0 key version stale generator w a now hw hgt
  obtain ⟨s, hitr⟩ := incr_flag_tr_shape (V := V) .get st0 key version
    (some (1 + orDefault stale jc.stale))
  have hflags := incr_flag_flags_same (V := V) .get st0 key version
    (some (1 + orDefault stale jc.stale))
  have hdtr := decr_flag_tr_of_some (V := V) .get
    (incr_flag .get st0 key version (some (1 + orDefault stale jc.stale))).st
    key version (some (1 + orDefault stale jc.stale)) (postIncrFlag st0 key version) hflags
  rw [heq]
  refine ⟨rfl, rfl, ?_, ?_, ?_, rfl⟩
  · simp [hitr, hdtr, List.countP_append, List.countP_cons, List.countP_nil, isGenInvoke]
  · simp [hitr, hdtr, List.countP_append, List.countP_cons, List.countP_nil, isDispatchEv]
  · simp [hitr, hdtr, List.countP_append, List.countP_cons, List.countP_nil, isDecrBy]

/-- A backend whose `flag:k` counter holds `2` (another caller is already
regenerating) with a stale entry under `data:k`. -/
def busyStaleW : Store Nat :=
  ⟨fun k w => if k = "flag:k" ∧ w = none then some 2 else none,
   fun k w => if k = "data:k" ∧ w = none then some (5, 50) else none⟩

theorem C1_witness :
    (JCache.get jcW busyStaleW "k" none none (some genW) false false 100).ret
        = .val (dataValue busyStaleW "k" none) ∧
    (JCache.get jcW busyStaleW "k" none none (some genW) false false 100).dispatched = none ∧
    ((JCache.get jcW busyStaleW "k" none none (some genW) false false 100).tr).countP
        isGenInvoke = 0 ∧
    ((JCache.get jcW busyStaleW "k" none none (some genW) false false 100).tr).countP
        isDispatchEv = 0 ∧
    ((JCache.get jcW busyStaleW "k" none none (some genW) false false 100).tr).countP
        (isDecrBy .get) = 1 ∧
    pendingReleases (JCache.get jcW busyStaleW "k" none none (some genW) false false 100) = 0 :=
  C1_not_elected_skips jcW busyStaleW "k" none none (some genW) false false 100
    (by decide) (by decide)

/-- C7: whenever regeneration is warranted and the flag-counter increment
returns a value strictly below 1, the counter is reset to `1` with the
fresh TTL `1 + (stale or self.stale)`, and this caller proceeds exactly as
an elected sole regenerator (the same `getElected` continuation a caller
observing post-increment value 1 runs, on the reset store). -/
theorem C7_anomaly_resets_and_elects (jc : JCache V) (st0 : Store V) (key : String)
    (version : Option Nat) (stale : Option Nat) (generator : Option (GenSpec V))
    (w a : Bool) (now : Int)
    (hw : regenWarranted st0 key version generator now = true)
    (hlt : postIncrFlag st0 key version < 1) :
    JCache.get jc st0 key version stale generator w a now
      = getElected jc
          (reset_flag .get
            (incr_flag .get st0 key version (some (1 + orDefault stale jc.stale))).st
            key version (some (1 + orDefault stale jc.stale)) 1).st
          key version stale generator w a
          (st0.datas ("data:" ++ key) version).isNone
          (dataValue st0 key version) now (some (1 + orDefault stale jc.stale))
          ((incr_flag .get st0 key version (some (1 + orDefault stale jc.stale))).tr
            ++ (reset_flag .get
              (incr_flag .get st0 key version (some (1 + orDefault stale jc.stale))).st
              key version (some (1 + orDefault stale jc.stale)) 1).tr) ∧
    (reset_flag .get
        (incr_flag .get st0 key version (some (1 + orDefault stale jc.stale))).st
        key version (some (1 + orDefault stale jc.stale)) 1).st.flags
        ("flag:" ++ key) version = some 1 ∧
    (reset_flag .get
        (incr_flag .get st0 key version (some (1 + orDefault stale jc.stale))).st
        key version (some (1 + orDefault stale jc.stale)) 1).tr
      = [Ev.resetFlag .get ("flag:" ++ key) (some (1 + orDefault stale jc.stale)) 1] :=
  ⟨get_eq_of_anomaly jc st0 key version stale generator w a now hw hlt,
   reset_flag_flags_same .get _ key version _ 1,
   reset_flag_tr .get _ key version _ 1⟩

theorem C7_witness :
    JCache.get jcW negFlagW "k" none none (some genW) false false 100
      = getElected jcW
          (reset_flag .get
            (incr_flag .get negFlagW "k" none (some (1 + orDefault none jcW.stale))).st
            "k" none (some (1 + orDefault none jcW.stale)) 1).st
          "k" none none (some genW) false false
          (negFlagW.datas ("data:" ++ "k") none).isNone
          (dataValue negFlagW "k" none) 100 (some (1 + orDefault none jcW.stale))
          ((incr_flag .get negFlagW "k" none (some (1 + orDefault none jcW.stale))).tr
            ++ (reset_flag .get
              (incr_flag .get negFlagW "k" none (some (1 + orDefault none jcW.stale))).st
              "k" none (some (1 + orDefault none jcW.stale)) 1).tr) ∧
    (reset_flag .get
        (incr_flag .get negFlagW "k" none (some (1 + orDefault none jcW.stale))).st
        "k" none (some (1 + orDefault none jcW.stale)) 1).st.flags ("flag:" ++ "k") none
      = some 1 ∧
    (reset_flag .get
        (incr_flag .get negFlagW "k" none (some (1 + orDefault none jcW.stale))).st
        "k" none (some (1 + orDefault none jcW.stale)) 1).tr
      = [Ev.resetFlag .get ("flag:" ++ "k") (some (1 + orDefault none jcW.stale)) 1] :=
  C7_anomaly_resets_and_elects jcW negFlagW "k" none none (some genW) false false 100
    (by decide) (by decide)

/-- C2: every execution of `get` performs at most one flag increment, and
the number of increments it performs equals the number of decrements
performed by `get` itself, plus those performed by an inline
`invoke_async` run, plus the pending release obligations handed off
(a dispatched Celery task, or an inline run deferred inside a returned
lazy object); and every `invoke_async` execution performs exactly one
decrement (its `finally:`), so each handed-off obligation is discharged
exactly once when the dispatched or deferred work runs. -/
theorem C2_release_accounting (jc : JCache V) (st0 : Store V) (key : String)
    (version : Option Nat) (stale : Option Nat) (generator : Option (GenSpec V))
    (w a : Bool) (now : Int) :
    (((JCache.get jc st0 key version stale generator w a now).tr).countP (isIncrBy .get)
      = ((JCache.get jc st0 key version stale generator w a now).tr).countP (isDecrBy .get)
        + ((JCache.get jc st0 key version stale generator w a now).tr).countP (isDecrBy .invoker)
        + pendingReleases (JCache.get jc st0 key version stale generator w a now)) ∧
    ((JCache.get jc st0 key version stale generator w a now).tr).countP (isIncrBy .get) ≤ 1 ∧
    ∀ (st' : Store V) (ia : IArgs V) (t : Int),
      ((invoke_async jc st' ia t).tr).countP (isDecrBy .invoker) = 1 := by
  obtain ⟨s, hitr⟩ := incr_flag_tr_shape (V := V) .get st0 key version
    (some (1 + orDefault stale jc.stale))
  have hflags := incr_flag_flags_same (V := V) .get st0 key version
    (some (1 + orDefault stale jc.stale))
  have hdtr := decr_flag_tr_of_some (V := V) .get
    (incr_flag .get st0 key version (some (1 + orDefault stale jc.stale))).st
    key version (some (1 + orDefault stale jc.stale))
    (postIncrFlag st0 key version) hflags
  refine ⟨?_, ?_, fun st' ia t => invoke_async_decrInv jc st' ia t⟩
  · rcases hwc : regenWarranted st0 key version generator now with _ | _
    · rw [get_eq_of_notWarranted jc st0 key version stale generator w a now hwc]
      simp [pendingReleases, List.countP_nil]
    · rcases lt_trichotomy (postIncrFlag st0 key version) 1 with h | h | h
      · rw [get_eq_of_anomaly jc st0 key version stale generator w a now hwc h]
        obtain ⟨hA, hB⟩ := getElected_accounting jc
          (reset_flag .get
            (incr_flag .get st0 key version (some (1 + orDefault stale jc.stale))).st
            key version (some (1 + orDefault stale jc.stale)) 1).st
          key version stale generator w a
          (st0.datas ("data:" ++ key) version).isNone
          (dataValue st0 key version) now (some (1 + orDefault stale jc.stale))
          ((incr_flag .get st0 key version (some (1 + orDefault stale jc.stale))).tr
            ++ (reset_flag .get
              (incr_flag .get st0 key version (some (1 + orDefault stale jc.stale))).st
              key version (some (1 + orDefault stale jc.stale)) 1).tr)
        rw [hA, hB]
        simp [hitr, reset_flag_tr, List.countP_append, List.countP_cons, List.countP_nil,
          isIncrBy, isDecrBy]
      · rw [get_eq_of_elected jc st0 key version stale generator w a now hwc h]
        obtain ⟨hA, hB⟩ := getElected_accounting jc
          (incr_flag .get st0 key version (some (1 + orDefault stale jc.stale))).st
          key version stale generator w a
          (st0.datas ("data:" ++ key) version).isNone
          (dataValue st0 key version) now (some (1 + orDefault stale jc.stale))
          (incr_flag .get st0 key version (some (1 + orDefault stale jc.stale))).tr
        rw [hA, hB]
        simp [hitr, List.countP_append, List.countP_cons, List.countP_nil,
          isIncrBy, isDecrBy]
      · rw [get_eq_of_notElected jc st0 key version stale generator w a now hwc h]
        simp [hitr, hdtr, pendingReleases, List.countP_append, List.countP_cons,
          List.countP_nil, isIncrBy, isDecrBy]
  · rcases hwc : regenWarranted st0 key version generator now with _ | _
    · rw [get_eq_of_notWarranted jc st0 key version stale generator w a now hwc]
      simp [List.countP_nil]
    · rcases lt_trichotomy (postIncrFlag st0 key version) 1 with h | h | h
      · rw [get_eq_of_anomaly jc st0 key version stale generator w a now hwc h]
        rw [(getElected_accounting jc
          (reset_flag .get
            (incr_flag .get st0 key version (some (1 + orDefault stale jc.stale))).st
            key version (some (1 + orDefault stale jc.stale)) 1).st
          key version stale generator w a
          (st0.datas ("data:" ++ key) version).isNone
          (dataValue st0 key version) now (some (1 + orDefault stale jc.stale))
          ((incr_flag .get st0 key version (some (1 + orDefault stale jc.stale))).tr
            ++ (reset_flag .get
              (incr_flag .get st0 key version (some (1 + orDefault stale jc.stale))).st
              key version (some (1 + orDefault stale jc.stale)) 1).tr)).1]
        simp [hitr, reset_flag_tr, List.countP_append, List.countP_cons, List.countP_nil,
          isIncrBy]
      · rw [get_eq_of_elected jc st0 key version stale generator w a now hwc h]
        rw [(getElected_accounting jc
          (incr_flag .get st0 key version (some (1 + orDefault stale jc.stale))).st
          key version stale generator w a
          (st0.datas ("data:" ++ key) version).isNone
          (dataValue st0 key version) now (some (1 + orDefault stale jc.stale))
          (incr_flag .get st0 key version (some (1 + orDefault stale jc.stale))).tr).1]
        simp [hitr, List.countP_append, List.countP_cons, List.countP_nil, isIncrBy]
      · rw [get_eq_of_notElected jc st0 key version stale generator w a now hwc h]
        simp [hitr, hdtr, List.countP_append, List.countP_cons, List.countP_nil,
          isIncrBy]

/-! ### Flag key and TTL discipline (for C8) -/

/-- An event respects the flag-key/TTL discipline for derived key `fk` and
seed TTL `t`: if it touches the flag counter it addresses `fk`, and if it
seeds or resets the counter it supplies TTL `t`. -/
def flagEvOK (fk : String) (t : Option Nat) (ev : Ev) : Prop :=
  (touchesFlag ev = true → evKey ev = some fk) ∧
  (seedsOrResets ev = true → evTTL ev = some t)

theorem flagEvOK_incr (a : Actor) (st : Store V) (key : String) (version : Option Nat)
    (t : Option Nat) : ∀ ev ∈ (incr_flag a st key version t).tr,
      flagEvOK ("flag:" ++ key) t ev := by
  unfold incr_flag
  cases st.flags ("flag:" ++ key) version <;>
    simp [flagEvOK, touchesFlag, seedsOrResets, evKey, evTTL]

theorem flagEvOK_decr_seedTTL (a : Actor) (st : Store V) (key : String)
    (version : Option Nat) (t : Option Nat) :
    ∀ ev ∈ (decr_flag a st key version t).tr, flagEvOK ("flag:" ++ key) t ev := by
  unfold decr_flag
  cases st.flags ("flag:" ++ key) version <;>
    simp [flagEvOK, touchesFlag, seedsOrResets, evKey, evTTL]

theorem flagEvOK_decr_noSeed (a : Actor) (st : Store V) (key : String)
    (version : Option Nat) (t t' : Option Nat) (n : Int)
    (h : st.flags ("flag:" ++ key) version = some n) :
    ∀ ev ∈ (decr_flag a st key version t).tr, flagEvOK ("flag:" ++ key) t' ev := by
  rw [decr_flag_tr_of_some a st key version t n h]
  simp [flagEvOK, touchesFlag, seedsOrResets, evKey, evTTL]

theorem flagEvOK_reset (a : Actor) (st : Store V) (key : String) (version : Option Nat)
    (t : Option Nat) (v : Int) :
    ∀ ev ∈ (reset_flag a st key version t v).tr, flagEvOK ("flag:" ++ key) t ev := by
  rw [reset_flag_tr]
  simp [flagEvOK, touchesFlag, seedsOrResets, evKey, evTTL]

theorem flagEvOK_invoke (jc : JCache V) (st : Store V) (ia : IArgs V) (runNow : Int) :
    ∀ ev ∈ (invoke_async jc st ia runNow).tr,
      flagEvOK ("flag:" ++ ia.key) (some (1 + orDefault ia.stale jc.stale)) ev := by
  unfold invoke_async
  split
  · rcases hg : callGen ia.generator with e0 | v
    · simp only [hg]
      intro ev hev
      rcases List.mem_cons.mp hev with h | h
      · simp [h, flagEvOK, touchesFlag, seedsOrResets]
      · exact flagEvOK_decr_seedTTL .invoker st ia.key ia.version _ ev h
    · obtain ⟨sa, te, hset⟩ := set_tr_shape jc st ia.key v
        (some (runNow + (orDefault ia.stale jc.stale : Int))) ia.version jc.expiry runNow
      simp only [hg]
      intro ev hev
      rcases List.mem_cons.mp hev with h | h
      · simp [h, flagEvOK, touchesFlag, seedsOrResets]
      · rcases List.mem_append.mp h with h2 | h2
        · rw [hset] at h2
          simp only [List.mem_singleton] at h2
          simp [h2, flagEvOK, touchesFlag, seedsOrResets]
        · exact flagEvOK_decr_seedTTL .invoker _ ia.key ia.version _ ev h2
  · intro ev hev
    exact flagEvOK_decr_seedTTL .invoker st ia.key ia.version _ ev hev

theorem flagEvOK_getElected (jc : JCache V) (st2 : Store V) (key : String)
    (version : Option Nat) (stale : Option Nat) (generator : Option (GenSpec V))
    (w a pn : Bool) (v0 : Option V) (now : Int) (tr2 : List Ev)
    (h2 : ∀ ev ∈ tr2, flagEvOK ("flag:" ++ key) (some (1 + orDefault stale jc.stale)) ev) :
    ∀ ev ∈ (getElected jc st2 key version stale generator w a pn v0 now
        (some (1 + orDefault stale jc.stale)) tr2).tr,
      flagEvOK ("flag:" ++ key) (some (1 + orDefault stale jc.stale)) ev := by
  unfold getElected
  cases w
  · intro ev hev
    rcases List.mem_append.mp hev with h | h
    · exact h2 ev h
    · simp only [List.mem_singleton] at h
      simp [h, flagEvOK, touchesFlag, seedsOrResets]
  · cases pn
    · cases a
      · intro ev hev
        rcases List.mem_append.mp hev with h | h
        · exact h2 ev h
        · exact flagEvOK_decr_seedTTL .get st2 key version _ ev h
      · intro ev hev
        rcases List.mem_append.mp hev with h | h
        · exact h2 ev h
        · simp only [List.mem_singleton] at h
          simp [h, flagEvOK, touchesFlag, seedsOrResets]
    · cases a
      · rcases generator with _ | g
        · intro ev hev
          unfold getInline at hev
          rcases List.mem_append.mp hev with h | h
          · exact h2 ev h
          · exact flagEvOK_invoke jc st2 _ now ev h
        · cases hl : g.lazy_result
          · intro ev hev
            unfold getInline at hev
            simp only [hl] at hev
            rcases List.mem_append.mp hev with h | h
            · exact h2 ev h
            · exact flagEvOK_invoke jc st2 _ now ev h
          · intro ev hev
            simp only [hl] at hev
            exact h2 ev hev
      · rcases generator with _ | g
        · intro ev hev
          rcases List.mem_append.mp hev with h | h
          · exact h2 ev h
          · simp only [List.mem_singleton] at h
            simp [h, flagEvOK, touchesFlag, seedsOrResets]
        · cases hl : g.lazy_result <;>
          · intro ev hev
            simp only [hl] at hev
            rcases List.mem_append.mp hev with h | h
            · exact h2 ev h
            · simp only [List.mem_singleton] at h
              simp [h, flagEvOK, touchesFlag, seedsOrResets]

theorem flagEvOK_get (jc : JCache V) (st0 : Store V) (key : String) (version : Option Nat)
    (stale : Option Nat) (generator : Option (GenSpec V)) (w a : Bool) (now : Int) :
    ∀ ev ∈ (JCache.get jc st0 key version stale generator w a now).tr,
      flagEvOK ("flag:" ++ key) (some (1 + orDefault stale jc.stale)) ev := by
  rcases hwc : regenWarranted st0 key version generator now with _ | _
  · rw [get_eq_of_notWarranted jc st0 key version stale generator w a now hwc]
    intro ev hev
    simp at hev
  · rcases lt_trichotomy (postIncrFlag st0 key version) 1 with h | h | h
    · rw [get_eq_of_anomaly jc st0 key version stale generator w a now hwc h]
      apply flagEvOK_getElected
      intro ev hev
      rcases List.mem_append.mp hev with h2 | h2
      · exact flagEvOK_incr .get st0 key version _ ev h2
      · exact flagEvOK_reset .get _ key version _ 1 ev h2
    · rw [get_eq_of_elected jc st0 key version stale generator w a now hwc h]
      apply flagEvOK_getElected
      intro ev hev
      exact flagEvOK_incr .get st0 key version _ ev hev
    · rw [get_eq_of_notElected jc st0 key version stale generator w a now hwc h]
      intro ev hev
      rcases List.mem_append.mp hev with h2 | h2
      · exact flagEvOK_incr .get st0 key version _ ev h2
      · exact flagEvOK_decr_seedTTL .get _ key version _ ev h2

theorem freshen_eq_le (jc : JCache V) (st0 : Store V) (key : String) (version : Option Nat)
    (generator : Option (GenSpec V)) (stale : Option Nat) (now : Int)
    (h : postIncrFlag st0 key version ≤ 1) :
    JCache.freshen jc st0 key version generator stale now
      = ⟨(reset_flag .freshen
            (incr_flag .freshen st0 key version (some (1 + orDefault stale jc.stale))).st
            key version (some (1 + orDefault stale jc.stale)) 1).st,
         (incr_flag .freshen st0 key version (some (1 + orDefault stale jc.stale))).tr
           ++ (reset_flag .freshen
             (incr_flag .freshen st0 key version (some (1 + orDefault stale jc.stale))).st
             key version (some (1 + orDefault stale jc.stale)) 1).tr
           ++ [.dispatch key],
         some ⟨key, version, generator, stale, some (now + (orDefault stale jc.stale : Int))⟩⟩ := by
  unfold JCache.freshen
  have hngt : ¬ ((incr_flag (V := V) .freshen st0 key version
      (some (1 + orDefault stale jc.stale))).ret > 1) := by
    rw [incr_flag_ret]
    omega
  simp [hngt]

theorem freshen_eq_gt (jc : JCache V) (st0 : Store V) (key : String) (version : Option Nat)
    (generator : Option (GenSpec V)) (stale : Option Nat) (now : Int)
    (h : 1 < postIncrFlag st0 key version) :
    JCache.freshen jc st0 key version generator stale now
      = ⟨(decr_flag .freshen
            (incr_flag .freshen st0 key version (some (1 + orDefault stale jc.stale))).st
            key version none).st,
         (incr_flag .freshen st0 key version (some (1 + orDefault stale jc.stale))).tr
           ++ (decr_flag .freshen
             (incr_flag .freshen st0 key version (some (1 + orDefault stale jc.stale))).st
             key version none).tr,
         none⟩ := by
  unfold JCache.freshen
  have hgt : (incr_flag (V := V) .freshen st0 key version
      (some (1 + orDefault stale jc.stale))).ret > 1 := by
    rw [incr_flag_ret]
    omega
  simp [hgt]

theorem flagEvOK_freshen (jc : JCache V) (st0 : Store V) (key : String)
    (version : Option Nat) (generator : Option (GenSpec V)) (stale : Option Nat)
    (now : Int) :
    ∀ ev ∈ (JCache.freshen jc st0 key version generator stale now).tr,
      flagEvOK ("flag:" ++ key) (some (1 + orDefault stale jc.stale)) ev := by
  rcases le_or_lt (postIncrFlag st0 key version) 1 with h | h
  · rw [freshen_eq_le jc st0 key version generator stale now h]
    intro ev hev
    rcases List.mem_append.mp hev with h2 | h2
    · rcases List.mem_append.mp h2 with h3 | h3
      · exact flagEvOK_incr .freshen st0 key version _ ev h3
      · exact flagEvOK_reset .freshen _ key version _ 1 ev h3
    · simp only [List.mem_singleton] at h2
      simp [h2, flagEvOK, touchesFlag, seedsOrResets]
  · rw [freshen_eq_gt jc st0 key version generator stale now h]
    intro ev hev
    rcases List.mem_append.mp hev with h2 | h2
    · exact flagEvOK_incr .freshen st0 key version _ ev h2
    · exact flagEvOK_decr_noSeed .freshen _ key version none _ (postIncrFlag st0 key version)
        (incr_flag_flags_same .freshen st0 key version _) ev h2

/-- C8 counterexample: with a per-call stale override of `5` seconds
(`staleWindow = 240`), the flag seed performed by `get` supplies TTL
`1 + 5 = 6`, not `1 + staleWindow = 241`: the claim "the TTL supplied is
1 + staleWindow seconds" is false when a stale override is given. -/
theorem C8_counterexample :
    ((JCache.get jcW emptyW "k" none (some 5) (some genW) false false 100).tr
      = [Ev.incrFlag .get "flag:k" (some 6) true 1, Ev.dispatch "k"]) ∧
    (some 6 : Option Nat) ≠ some (1 + jcW.stale) := by
  decide

/-- C8 (amended): the flag counter for cache key `k` is only ever
addressed under the derived key `"flag:" + k`, and every seed or reset of
it performed by `get`, by `freshen`, or by the decrement helper inside
`invoke_async`, supplies the TTL `1 + (stale or self.stale)` — i.e.
`1 + staleWindow` when no per-call stale override is given, else
`1 + staleOverride`. -/
theorem C8_flag_key_and_ttl (jc : JCache V) (st0 : Store V) (key : String)
    (version : Option Nat) (stale : Option Nat) (generator : Option (GenSpec V))
    (w a : Bool) (now : Int) :
    (∀ ev ∈ (JCache.get jc st0 key version stale generator w a now).tr,
        flagEvOK ("flag:" ++ key) (some (1 + orDefault stale jc.stale)) ev) ∧
    (∀ ev ∈ (JCache.freshen jc st0 key version generator stale now).tr,
        flagEvOK ("flag:" ++ key) (some (1 + orDefault stale jc.stale)) ev) ∧
    (∀ (st' : Store V) (ia : IArgs V) (t : Int), ∀ ev ∈ (invoke_async jc st' ia t).tr,
        flagEvOK ("flag:" ++ ia.key) (some (1 + orDefault ia.stale jc.stale)) ev) :=
  ⟨flagEvOK_get jc st0 key version stale generator w a now,
   flagEvOK_freshen jc st0 key version generator stale now,
   fun st' ia t => flagEvOK_invoke jc st' ia t⟩

theorem C8_witness :
    flagEvOK ("flag:" ++ "k") (some (1 + orDefault (some 5) jcW.stale))
      (Ev.incrFlag .get "flag:k" (some 6) true 1) :=
  (C8_flag_key_and_ttl jcW emptyW "k" none (some 5) (some genW) false false 100).1
    (Ev.incrFlag .get "flag:k" (some 6) true 1) (by decide)

theorem incr_flag_tr_flagsOnly (a : Actor) (st st' : Store V) (key : String)
    (version : Option Nat) (t : Option Nat) (h : st.flags = st'.flags) :
    (incr_flag a st key version t).tr = (incr_flag a st' key version t).tr := by
  unfold incr_flag
  rw [h]
  rcases hc : st'.flags ("flag:" ++ key) version with _ | n <;> simp [hc]

theorem decr_flag_tr_flagsOnly (a : Actor) (st st' : Store V) (key : String)
    (version : Option Nat) (t : Option Nat) (h : st.flags = st'.flags) :
    (decr_flag a st key version t).tr = (decr_flag a st' key version t).tr := by
  unfold decr_flag
  rw [h]
  rcases hc : st'.flags ("flag:" ++ key) version with _ | n <;> simp [hc]

/-- C9: `freshen` increments the flag counter exactly once without reading
the cache entry (its trace and dispatch decision do not depend on the data
map, and the data map is left unchanged); when the post-increment value is
at most 1 (after the anomaly reset to 1 when needed) it dispatches exactly
one background regeneration and returns its handle, leaving the counter at
1 and performing no decrement; when the post-increment value exceeds 1 it
decrements the counter once and dispatches nothing, regardless of the
entry's freshness. -/
theorem C9_freshen_protocol (jc : JCache V) (st0 : Store V) (key : String)
    (version : Option Nat) (generator : Option (GenSpec V)) (stale : Option Nat)
    (now : Int) (d2 : String → Option Nat → Option (V × Int)) :
    ((JCache.freshen jc st0 key version generator stale now).tr).countP (isIncrBy .freshen) = 1 ∧
    (postIncrFlag st0 key version ≤ 1 →
      (JCache.freshen jc st0 key version generator stale now).dispatched
        = some ⟨key, version, generator, stale, some (now + (orDefault stale jc.stale : Int))⟩ ∧
      ((JCache.freshen jc st0 key version generator stale now).tr).countP isDispatchEv = 1 ∧
      ((JCache.freshen jc st0 key version generator stale now).tr).countP (isDecrBy .freshen) = 0 ∧
      (JCache.freshen jc st0 key version generator stale now).st.flags
        ("flag:" ++ key) version = some 1) ∧
    (1 < postIncrFlag st0 key version →
      (JCache.freshen jc st0 key version generator stale now).dispatched = none ∧
      ((JCache.freshen jc st0 key version generator stale now).tr).countP isDispatchEv = 0 ∧
      ((JCache.freshen jc st0 key version generator stale now).tr).countP (isDecrBy .freshen) = 1) ∧
    (JCache.freshen jc st0 key version generator stale now).st.datas = st0.datas ∧
    (JCache.freshen jc ⟨st0.flags, d2⟩ key version generator stale now).tr
      = (JCache.freshen jc st0 key version generator stale now).tr ∧
    (JCache.freshen jc ⟨st0.flags, d2⟩ key version generator stale now).dispatched
      = (JCache.freshen jc st0 key version generator stale now).dispatched := by
  obtain ⟨s, hitr⟩ := incr_flag_tr_shape (V := V) .freshen st0 key version
    (some (1 + orDefault stale jc.stale))
  have hflags := incr_flag_flags_same (V := V) .freshen st0 key version
    (some (1 + orDefault stale jc.stale))
  have hdtr := decr_flag_tr_of_some (V := V) .freshen
    (incr_flag .freshen st0 key version (some (1 + orDefault stale jc.stale))).st
    key version none (postIncrFlag st0 key version) hflags
  have hpi : postIncrFlag (⟨st0.flags, d2⟩ : Store V) key version
      = postIncrFlag st0 key version := rfl
  have hitr2 := incr_flag_tr_flagsOnly .freshen (⟨st0.flags, d2⟩ : Store V) st0 key version
    (some (1 + orDefault stale jc.stale)) rfl
  rcases le_or_lt (postIncrFlag st0 key version) 1 with h | h
  · rw [freshen_eq_le jc st0 key version generator stale now h,
      freshen_eq_le jc (⟨st0.flags, d2⟩ : Store V) key version generator stale now
        (by rw [hpi]; exact h)]
    refine ⟨?_, fun _ => ⟨rfl, ?_, ?_,
        reset_flag_flags_same .freshen
          (incr_flag .freshen st0 key version (some (1 + orDefault stale jc.stale))).st
          key version (some (1 + orDefault stale jc.stale)) 1⟩,
      fun hc => absurd hc (by omega), ?_, ?_, rfl⟩
    · simp [hitr, reset_flag_tr, List.countP_append, List.countP_cons, List.countP_nil,
        isIncrBy]
    · simp [hitr, reset_flag_tr, List.countP_append, List.countP_cons, List.countP_nil,
        isDispatchEv]
    · simp [hitr, reset_flag_tr, List.countP_append, List.countP_cons, List.countP_nil,
        isDecrBy]
    · simp [reset_flag_datas, incr_flag_datas]
    · rw [hitr2, reset_flag_tr, reset_flag_tr]
  · rw [freshen_eq_gt jc st0 key version generator stale now h,
      freshen_eq_gt jc (⟨st0.flags, d2⟩ : Store V) key version generator stale now
        (by rw [hpi]; exact h)]
    have hdtr2 : (decr_flag .freshen
        (incr_flag .freshen (⟨st0.flags, d2⟩ : Store V) key version
          (some (1 + orDefault stale jc.stale))).st key version none).tr
      = (decr_flag .freshen
        (incr_flag .freshen st0 key version
          (some (1 + orDefault stale jc.stale))).st key version none).tr := by
      apply decr_flag_tr_flagsOnly
      unfold incr_flag
      rcases hc : st0.flags ("flag:" ++ key) version with _ | n <;> simp [hc, setFlagRaw]
    refine ⟨?_, fun hc => absurd h (by omega), fun _ => ⟨rfl, ?_, ?_⟩, ?_, ?_, rfl⟩
    · simp [hitr, hdtr, List.countP_append, List.countP_cons, List.countP_nil, isIncrBy]
    · simp [hitr, hdtr, List.countP_append, List.countP_cons, List.countP_nil, isDispatchEv]
    · simp [hitr, hdtr, List.countP_append, List.countP_cons, List.countP_nil, isDecrBy]
    · simp [decr_flag_datas, incr_flag_datas]
    · rw [hitr2, hdtr2]

theorem C9_witness :
    ((JCache.freshen jcW emptyW "k" none (some genW) none 100).tr).countP (isIncrBy .freshen) = 1 ∧
    (JCache.freshen jcW emptyW "k" none (some genW) none 100).dispatched
      = some ⟨"k", none, some genW, none, some (100 + ((orDefault none jcW.stale : Nat) : Int))⟩ ∧
    ((JCache.freshen jcW emptyW "k" none (some genW) none 100).tr).countP isDispatchEv = 1 ∧
    ((JCache.freshen jcW emptyW "k" none (some genW) none 100).tr).countP (isDecrBy .freshen) = 0 ∧
    (JCache.freshen jcW emptyW "k" none (some genW) none 100).st.flags ("flag:" ++ "k") none
      = some 1 := by
  have h := C9_freshen_protocol jcW emptyW "k" none (some genW) none 100 (fun _ _ => none)
  have h2 := h.2.1 (by decide)
  exact ⟨h.1, h2.1, h2.2.1, h2.2.2.1, h2.2.2.2⟩

end JCacheModel
